import Mathlib

/-!
Verification of the night-cloud-cli mining coordinator core.

This file shallowly embeds the pure state-transition logic of the
repository's TypeScript sources and proves the specified properties
about it.  Machine integers and timestamps (milliseconds since the
epoch, as produced by `Date.now()` / `new Date(s).getTime()`) are
modelled as `Nat`; JavaScript object maps are modelled as association
lists in property-insertion order; fallible paths are explicit
constructors.  Each definition cites the source location it embeds.
-/

namespace NightCloud

/-! ### Registry data model

Embeds the `Registry` / `Assignment` interfaces of
`packages/miner/src/scripts/assign-addresses.ts` (lines 28-46).
Timestamps (`assignedAt`, `lastHeartbeat`, `lastUpdated`) are the
parsed `getTime()` values of the stored ISO strings.  An absent
`lastHeartbeat` field is `none`. -/

structure Assignment where
  instanceId : String
  publicIp : String
  startAddress : Nat
  endAddress : Nat
  addresses : List String
  assignedAt : Nat
  region : String
  lastHeartbeat : Option Nat
deriving DecidableEq

/-- The registry object `registry.json`.  `assignments` is a JavaScript
object keyed by instance id, modelled as an association list in
property-insertion order. -/
structure Registry where
  assignments : List (String × Assignment)
  addresses : List String
  nextAvailable : Nat
  lastUpdated : Nat
  addressesPerInstance : Option Nat
  region : Option String
deriving DecidableEq

/-- Key lookup in an association list, as JavaScript object indexing /
`Map.get`. -/
def lookupKey {β : Type} (k : String) : List (String × β) → Option β
  | [] => none
  | (k', v) :: rest => if k' = k then some v else lookupKey k rest

/-! ### Allocator-path opportunistic cleanup

Embeds `cleanupStaleAssignments` of `assign-addresses.ts` lines
104-133: an assignment is stale when it has no heartbeat and is older
than 90 seconds, or its heartbeat is older than 90 seconds.  JavaScript
computes `now - t` on numbers, which is negative when `t` is in the
future and therefore not `> threshold`; `Nat` subtraction truncates to
`0` with the same outcome. -/

def allocStaleThreshold : Nat := 90 * 1000

def isStaleAlloc (now : Nat) (a : Assignment) : Bool :=
  match a.lastHeartbeat with
  | none => decide (now - a.assignedAt > allocStaleThreshold)
  | some hb => decide (now - hb > allocStaleThreshold)

def cleanupStaleAssignments (now : Nat) (r : Registry) : Registry :=
  { r with assignments := r.assignments.filter (fun p => !isStaleAlloc now p.2) }

/-! ### Address reservation

Embeds one successful compare-and-set iteration of `reserveAddresses`
(`assign-addresses.ts` lines 167-227).  Only the `assigned` outcome
performs the conditional PUT and carries the written registry; the
other paths return or throw before writing, leaving the stored registry
untouched (the opportunistic cleanup only mutated the in-memory copy). -/

def DEFAULT_ADDRESSES_PER_INSTANCE : Nat := 10

inductive ReserveOutcome
  | assigned (a : Assignment) (r : Registry)
  | alreadyAssigned (addrs : List String)
  | noAddresses
  | exhausted
deriving DecidableEq

/-- The `registry.addressesPerInstance || DEFAULT_ADDRESSES_PER_INSTANCE`
fallback (line 186); `0` is falsy in JavaScript. -/
def effectiveAddressesPerInstance (o : Option Nat) : Nat :=
  match o with
  | none => DEFAULT_ADDRESSES_PER_INSTANCE
  | some k => if k = 0 then DEFAULT_ADDRESSES_PER_INSTANCE else k

def reserveAddressesStep (iid pip reg : String) (now : Nat) (r : Registry) :
    ReserveOutcome :=
  let cleaned := cleanupStaleAssignments now r
  match lookupKey iid cleaned.assignments with
  | some a => .alreadyAssigned a.addresses
  | none =>
    if cleaned.addresses.isEmpty then .noAddresses
    else
      let k := effectiveAddressesPerInstance cleaned.addressesPerInstance
      let start := cleaned.nextAvailable
      let stop := start + k - 1
      if cleaned.addresses.length ≤ stop then .exhausted
      else
        let a : Assignment :=
          { instanceId := iid, publicIp := pip, startAddress := start,
            endAddress := stop,
            addresses := (cleaned.addresses.drop start).take (stop + 1 - start),
            assignedAt := now, region := reg, lastHeartbeat := some now }
        .assigned a
          { cleaned with
            assignments := cleaned.assignments ++ [(iid, a)],
            nextAvailable := stop + 1, lastUpdated := now }

/-! ### Periodic reclaimer

Embeds `cleanupRegistry` of `packages/miner/src/scripts/cleanup-registry.ts`
lines 247-298.  The heartbeat map is the result of `scanHeartbeats`
(instance id to parsed heartbeat time).  The code guards with
`if (!lastHeartbeat)`, so a heartbeat value of `0` (falsy in JavaScript)
falls into the no-heartbeat branch and the `assignedAt` age is used
instead.  When no stale assignment is found the function returns before
the PUT, leaving the registry object untouched; the `nextAvailable`
field is absent from this script's `Registry` interface but survives
the `JSON.parse` / `JSON.stringify` round trip unmodified. -/

def STALE_THRESHOLD : Nat := 1800 * 1000

def isStalePeriodic (hb : List (String × Nat)) (now : Nat) (iid : String)
    (a : Assignment) : Bool :=
  match lookupKey iid hb with
  | none => decide (now - a.assignedAt > STALE_THRESHOLD)
  | some t =>
    if t = 0 then decide (now - a.assignedAt > STALE_THRESHOLD)
    else decide (now - t > STALE_THRESHOLD)

def cleanupRegistryStep (hb : List (String × Nat)) (now wNow : Nat)
    (r : Registry) : Registry :=
  let staleIds :=
    (r.assignments.filter (fun p => isStalePeriodic hb now p.1 p.2)).map Prod.fst
  if staleIds.isEmpty then r
  else
    { r with
      assignments := r.assignments.filter (fun p => !staleIds.contains p.1),
      lastUpdated := wNow }

/-! ### Registry operation sequences

The operations that mutate the stored registry: a worker's boot-time
reservation (which applies the opportunistic 90-second cleanup inside
its read-modify-write body) and a run of the leader-elected periodic
reclaimer.  `seedRegistry` is the controller's fresh seed
(`packages/cli/src/utils/s3-registry.ts` lines 195-202 with no existing
registry: empty `assignments`, `nextAvailable = 0`). -/

inductive RegOp
  | reserve (iid pip reg : String) (now : Nat)
  | cleanup (hb : List (String × Nat)) (now wNow : Nat)

def regStep (r : Registry) : RegOp → Registry
  | .reserve iid pip reg now =>
    match reserveAddressesStep iid pip reg now r with
    | .assigned _ r' => r'
    | _ => r
  | .cleanup hb now wNow => cleanupRegistryStep hb now wNow r

def seedRegistry (addresses : List String) (k : Nat) (now : Nat)
    (reg : String) : Registry :=
  { assignments := [], addresses := addresses, nextAvailable := 0,
    lastUpdated := now, addressesPerInstance := some k, region := some reg }

def runRegistry (addresses : List String) (k now : Nat) (reg : String)
    (ops : List RegOp) : Registry :=
  ops.foldl regStep (seedRegistry addresses k now reg)

/-- The closed address interval `[startAddress, endAddress]` covered by
an assignment. -/
def addrInterval (a : Assignment) : Finset Nat :=
  Finset.Icc a.startAddress a.endAddress

/-! ### Solutions ledger

Embeds the per-address solutions file `solutions/{address}.json` of
`SolutionTracker` (`solution-tracker.ts`): interfaces `SolutionRecord`
and `AddressSolutions` (lines 175-186). -/

structure SolutionRecord where
  challengeId : String
  nonce : String
  submittedAt : Nat
  instanceId : Option String
deriving DecidableEq

structure AddressSolutions where
  address : String
  solutions : List SolutionRecord
  lastUpdated : Nat
deriving DecidableEq

/-- One call of `SolutionTracker.recordSolution` (lines 304-389) acting
on the per-address file, whose prior content is `file` (`none` when the
object does not exist, the `NoSuchKey` branch).  Donation solutions
never touch the per-address file.  When a record with the same
`challengeId` already exists the function returns before mutating or
writing. -/
def recordSolutionFile (address challengeId nonce : String)
    (instanceId : Option String) (isDonation : Bool) (now : Nat)
    (file : Option AddressSolutions) : Option AddressSolutions :=
  if isDonation then file
  else
    let as : AddressSolutions :=
      match file with
      | some f => f
      | none => { address := address, solutions := [], lastUpdated := now }
    if as.solutions.any (fun s => s.challengeId = challengeId) then file
    else
      some { as with
        solutions := as.solutions ++
          [{ challengeId := challengeId, nonce := nonce, submittedAt := now,
             instanceId := instanceId }],
        lastUpdated := now }

/-- The arguments of one non-donation `recordSolution(a, c, n)` call that
vary between repeated calls: the optional instance id and the wall
clock. -/
structure RecordCallCtx where
  instanceId : Option String
  now : Nat

/-- A sequence of successful `recordSolution` calls against one
per-address file. -/
structure RecordCall where
  address : String
  challengeId : String
  nonce : String
  ctx : RecordCallCtx
  isDonation : Bool

def runRecordCalls (calls : List RecordCall)
    (file : Option AddressSolutions) : Option AddressSolutions :=
  calls.foldl
    (fun f c =>
      recordSolutionFile c.address c.challengeId c.nonce c.ctx.instanceId
        c.isDonation c.ctx.now f) file

/-! ### Solution lookup used by the work-queue builder

Embeds `SolutionTracker.hasSolution` (lines 281-298).  The store maps an
address to its solutions file; during `WorkQueue.build` the preloaded
cache holds exactly the `challengeId` sets of these files, so both
branches of `hasSolution` compute this predicate. -/

def SolutionStore : Type := List (String × AddressSolutions)

def hasSolutionStore (store : SolutionStore) (address challengeId : String) :
    Bool :=
  match lookupKey address store with
  | some f => f.solutions.any (fun s => s.challengeId = challengeId)
  | none => false

/-! ### Aggregate stats

Embeds `SolutionStats` (lines 188-206), `createEmptyStats` (603-612)
and the committed bodies of the optimistic-lock loops `updateStats`
(463-490) and `updateStatsWithError` (562-575): bump the counter,
unshift the new entry and truncate to the 20 most recent. -/

structure RecentSolution where
  address : String
  challengeId : String
  timestamp : Nat
  isDonation : Bool
deriving DecidableEq

structure RecentError where
  address : String
  challengeId : String
  timestamp : Nat
  errorMessage : String
  isDonation : Bool
deriving DecidableEq

structure SolutionStats where
  totalSolutions : Nat
  donationSolutions : Nat
  totalErrors : Nat
  lastUpdated : Nat
  recentSolutions : List RecentSolution
  recentErrors : List RecentError
deriving DecidableEq

def createEmptyStats (now : Nat) : SolutionStats :=
  { totalSolutions := 0, donationSolutions := 0, totalErrors := 0,
    lastUpdated := now, recentSolutions := [], recentErrors := [] }

def updateStatsCommit (address challengeId : String) (isDonation : Bool)
    (now : Nat) (s : SolutionStats) : SolutionStats :=
  { s with
    totalSolutions := s.totalSolutions + 1,
    donationSolutions :=
      if isDonation then s.donationSolutions + 1 else s.donationSolutions,
    lastUpdated := now,
    recentSolutions :=
      ({ address := address, challengeId := challengeId, timestamp := now,
         isDonation := isDonation } :: s.recentSolutions).take 20 }

def updateStatsWithErrorCommit (address challengeId errorMessage : String)
    (isDonation : Bool) (now : Nat) (s : SolutionStats) : SolutionStats :=
  { s with
    totalErrors := s.totalErrors + 1,
    lastUpdated := now,
    recentErrors :=
      ({ address := address, challengeId := challengeId, timestamp := now,
         errorMessage := errorMessage, isDonation := isDonation }
        :: s.recentErrors).take 20 }

/-- One committed stats update: a successful submission or a submission
error. -/
inductive StatsEvent
  | sol (address challengeId : String) (isDonation : Bool) (now : Nat)
  | err (address challengeId errorMessage : String) (isDonation : Bool)
        (now : Nat)

def statsStep (s : SolutionStats) : StatsEvent → SolutionStats
  | .sol a c d n => updateStatsCommit a c d n s
  | .err a c e d n => updateStatsWithErrorCommit a c e d n s

def runStats (events : List StatsEvent) (s : SolutionStats) : SolutionStats :=
  events.foldl statsStep s

def countSolEvents (events : List StatsEvent) : Nat :=
  events.countP (fun e => match e with | .sol _ _ _ _ => true | _ => false)

def countErrEvents (events : List StatsEvent) : Nat :=
  events.countP (fun e => match e with | .err _ _ _ _ _ => true | _ => false)

/-- The `recentSolutions` entry produced by a solution event. -/
def solEntry : StatsEvent → Option RecentSolution
  | .sol a c d n =>
    some { address := a, challengeId := c, timestamp := n, isDonation := d }
  | .err _ _ _ _ _ => none

/-- The `recentErrors` entry produced by an error event. -/
def errEntry : StatsEvent → Option RecentError
  | .err a c e d n =>
    some { address := a, challengeId := c, timestamp := n,
           errorMessage := e, isDonation := d }
  | .sol _ _ _ _ => none

/-! ### Challenge queue

Embeds `QueuedChallenge` and `ChallengeQueueManager` of
`packages/miner/src/challenge-queue.ts`.  The ISO timestamp strings
`latestSubmission` and `availableAt` are modelled by their parsed
`getTime()` values, which is what every comparison in the source uses. -/

structure QueuedChallenge where
  challengeId : String
  challengeNumber : Nat
  challengeTotal : Nat
  campaignDay : Nat
  difficulty : String
  noPreMine : String
  noPreMineHour : String
  latestSubmission : Nat
  availableAt : Nat
deriving DecidableEq

/-- The Mine-API challenge payload consumed by `addChallenge`
(`shared/api.ts` `Challenge`), restricted to the fields the queue
reads. -/
structure ApiChallenge where
  challenge_id : String
  challenge_number : Nat
  day : Nat
  difficulty : String
  no_pre_mine : String
  no_pre_mine_hour : String
  latest_submission : Nat
  issued_at : Nat
deriving DecidableEq

/-- The `challenges.sort((a, b) => availableAt(a) - availableAt(b))`
calls (challenge-queue.ts lines 52, 99, 165).  JavaScript's sort is
stable, so it agrees with a stable insertion sort over the same total
preorder. -/
def byAvailableAtAsc (a b : QueuedChallenge) : Prop :=
  a.availableAt ≤ b.availableAt

instance : DecidableRel byAvailableAtAsc := fun a b =>
  Nat.decLe a.availableAt b.availableAt

instance : IsTotal QueuedChallenge byAvailableAtAsc :=
  ⟨fun a b => Nat.le_total a.availableAt b.availableAt⟩

instance : IsTrans QueuedChallenge byAvailableAtAsc :=
  ⟨fun _ _ _ hab hbc => Nat.le_trans hab hbc⟩

def sortByAvailableAt (cs : List QueuedChallenge) : List QueuedChallenge :=
  cs.insertionSort byAvailableAtAsc

def maxChallenges : Nat := 24

/-- The `QueuedChallenge` built from the API payload inside
`addChallenge` (lines 149-159). -/
def toQueuedChallenge (c : ApiChallenge) : QueuedChallenge :=
  { challengeId := c.challenge_id, challengeNumber := c.challenge_number,
    challengeTotal := 504, campaignDay := c.day, difficulty := c.difficulty,
    noPreMine := c.no_pre_mine, noPreMineHour := c.no_pre_mine_hour,
    latestSubmission := c.latest_submission, availableAt := c.issued_at }

/-- `ChallengeQueueManager.addChallenge` (lines 141-174): skip when the
id is already queued, otherwise push, sort ascending by `availableAt`,
and keep only the last `maxChallenges` entries (`slice(-24)`). -/
def addChallenge (c : ApiChallenge) (q : List QueuedChallenge) :
    List QueuedChallenge :=
  if q.any (fun x => x.challengeId = c.challenge_id) then q
  else
    let q' := sortByAvailableAt (q ++ [toQueuedChallenge c])
    if maxChallenges < q'.length then q'.drop (q'.length - maxChallenges)
    else q'

/-- `ChallengeQueueManager.cleanExpiredChallenges` (lines 210-221): keep
the challenges whose `latestSubmission` is strictly in the future. -/
def cleanExpiredChallenges (now : Nat) (q : List QueuedChallenge) :
    List QueuedChallenge :=
  q.filter (fun c => decide (now < c.latestSubmission))

inductive ChalOp
  | add (c : ApiChallenge)
  | clean (now : Nat)

def chalStep (q : List QueuedChallenge) : ChalOp → List QueuedChallenge
  | .add c => addChallenge c q
  | .clean now => cleanExpiredChallenges now q

/-- The in-memory queue after a sequence of operations, starting from
the constructor's empty queue (line 20). -/
def runChallengeQueue (ops : List ChalOp) : List QueuedChallenge :=
  ops.foldl chalStep []

/-! ### Difficulty popcount

Embeds the comparator of `WorkQueue.build` (`work-queue.ts` lines
284-293): `parseInt(difficulty, 16)` followed by
`toString(2).split("1").length - 1`.  `parseInt` produces an IEEE-754
double: it skips leading whitespace, accepts one optional sign, strips
an optional `0x`/`0X` prefix, reads the longest hex-digit prefix (no
digits is NaN), forms the exact integer it denotes, and rounds that
integer to double precision (53-bit mantissa, round to nearest, ties to
even, overflowing to Infinity at `2 ^ 1024`).  `toString(2)` then counts
the `'1'` characters of the binary expansion, so NaN (`"NaN"`) and
Infinity (`"Infinity"`) count 0 and a minus sign contributes nothing —
only the rounded magnitude matters.  All recursions below are
fuel-structural (the fuel always dominates the number of halvings) so
that they evaluate by `decide`. -/

def hexDigitVal : Char → Option Nat := fun c =>
  if '0' ≤ c ∧ c ≤ '9' then some (c.toNat - 48)
  else if 'a' ≤ c ∧ c ≤ 'f' then some (c.toNat - 87)
  else if 'A' ≤ c ∧ c ≤ 'F' then some (c.toNat - 55)
  else none

def hexToNatAux : List Char → Nat → Nat
  | [], acc => acc
  | c :: cs, acc =>
    match hexDigitVal c with
    | some d => hexToNatAux cs (16 * acc + d)
    | none => acc

/-- The exact mathematical value of the longest hex-digit prefix of the
string (unbounded).  This is the `mathInt` of `parseInt` before the
rounding to a double, and, on a plain hex string, the exact value whose
set bits the specification's "popcount of difficulty" refers to. -/
def hexToNat (s : String) : Nat := hexToNatAux s.data 0

def popcountAux : Nat → Nat → Nat
  | 0, _ => 0
  | fuel + 1, n => if n = 0 then 0 else n % 2 + popcountAux fuel (n / 2)

/-- The number of set bits in the binary expansion of `n`. -/
def popcount (n : Nat) : Nat := popcountAux n n

/-- The exact set-bit count of a hex difficulty string — the quantity
the specification's difficulty-ordering sentence speaks about. -/
def hexBitCount (s : String) : Nat := popcount (hexToNat s)

def bitLengthAux : Nat → Nat → Nat
  | 0, _ => 0
  | fuel + 1, n => if n = 0 then 0 else bitLengthAux fuel (n / 2) + 1

/-- The number of binary digits of `n` (0 for 0). -/
def bitLength (n : Nat) : Nat := bitLengthAux n n

/-- The ECMAScript whitespace and line-terminator code points skipped
by `parseInt` (the remaining Unicode `Zs` code points beyond NBSP are
omitted; difficulty strings are machine-generated hex). -/
def isJsWhitespace (c : Char) : Bool :=
  c == ' ' || c == '\t' || c == '\n' || c == '\r' ||
  c.toNat == 11 || c.toNat == 12 || c.toNat == 0xA0 ||
  c.toNat == 0x2028 || c.toNat == 0x2029 || c.toNat == 0xFEFF

/-- `parseInt(s, 16)` up to sign and rounding: skip leading whitespace,
accept one optional `+`/`-`, strip one `0x`/`0X` prefix, then read the
longest hex-digit prefix; `none` is NaN (no digits).  Only the exact
magnitude is returned: the sign cannot affect the `'1'` count of
`toString(2)`. -/
def jsParseIntHexMagnitude (s : String) : Option Nat :=
  let cs1 := s.data.dropWhile isJsWhitespace
  let cs2 :=
    match cs1 with
    | '+' :: rest => rest
    | '-' :: rest => rest
    | _ => cs1
  let cs3 :=
    match cs2 with
    | '0' :: 'x' :: rest => rest
    | '0' :: 'X' :: rest => rest
    | _ => cs2
  match cs3 with
  | [] => none
  | c :: _ =>
    match hexDigitVal c with
    | none => none
    | some _ => some (hexToNatAux cs3 0)

/-- Rounds a natural number to the nearest IEEE-754 double value
(53-bit mantissa, round to nearest, ties to even).  Values below
`2 ^ 53` are exact; the caller treats a result of `2 ^ 1024` or more as
the overflow to Infinity. -/
def roundFloat64 (n : Nat) : Nat :=
  if n < 2 ^ 53 then n
  else
    let excess := bitLength n - 53
    let q := n / 2 ^ excess
    let r := n % 2 ^ excess
    let half := 2 ^ (excess - 1)
    if r < half then q * 2 ^ excess
    else if half < r then (q + 1) * 2 ^ excess
    else if q % 2 = 0 then q * 2 ^ excess
    else (q + 1) * 2 ^ excess

/-- The count the `build()` comparator actually computes for a
challenge: the `'1'` characters of
`parseInt(difficulty, 16).toString(2)`.  NaN and Infinity render as
`"NaN"` and `"Infinity"` and count 0; a finite value counts the set
bits of its double-rounded magnitude. -/
def difficultyBits (c : QueuedChallenge) : Nat :=
  match jsParseIntHexMagnitude c.difficulty with
  | none => 0
  | some n =>
    let r := roundFloat64 n
    if 2 ^ 1024 ≤ r then 0 else popcount r

/-- The descending-popcount order of the `build()` comparator
(`countBitsB - countBitsA`): `a` sorts no later than `b` when `b` has at
most as many set bits. -/
def byDifficultyDesc (a b : QueuedChallenge) : Prop :=
  difficultyBits b ≤ difficultyBits a

instance : DecidableRel byDifficultyDesc := fun a b =>
  Nat.decLe (difficultyBits b) (difficultyBits a)

instance : IsTotal QueuedChallenge byDifficultyDesc :=
  ⟨fun a b => Nat.le_total (difficultyBits b) (difficultyBits a)⟩

instance : IsTrans QueuedChallenge byDifficultyDesc :=
  ⟨fun _ _ _ hab hbc => Nat.le_trans hbc hab⟩

/-- The `[...challenges].sort(...)` of `build()` (lines 284-293); again a
stable sort over a total preorder, hence equal to insertion sort. -/
def sortChallengesByDifficulty (cs : List QueuedChallenge) :
    List QueuedChallenge :=
  cs.insertionSort byDifficultyDesc

/-! ### Work queue construction

Embeds `WorkItem` (work-queue.ts lines 223-229) and `WorkQueue.build`
(lines 274-365).  The donation endpoint is an external capability: the
`fetches` list supplies the successive results of
`fetchDonationAddress()` (`none` both for a failed fetch and when the
list is exhausted), and `offset` is the random `donationOffset`. -/

structure WorkItem where
  address : String
  addressIndex : Int
  challenge : QueuedChallenge
  id : String
  isDonation : Bool
deriving DecidableEq

/-- The inner loop of `build()` (lines 301-317) for one challenge:
walk the addresses with their index and emit a work item for each
address that has not already solved the challenge. -/
def itemsForChallenge (store : SolutionStore) (ch : QueuedChallenge) :
    Nat → List String → List WorkItem
  | _, [] => []
  | i, a :: rest =>
    if hasSolutionStore store a ch.challengeId then
      itemsForChallenge store ch (i + 1) rest
    else
      { address := a, addressIndex := (i : Int), challenge := ch,
        id := a ++ "-" ++ ch.challengeId, isDonation := false }
        :: itemsForChallenge store ch (i + 1) rest

/-- The `regularWorkItems` list of `build()`: challenges easiest first,
addresses in order within each challenge. -/
def buildRegularItems (store : SolutionStore) (addresses : List String)
    (challenges : List QueuedChallenge) : List WorkItem :=
  (sortChallengesByDifficulty challenges).flatMap
    (fun ch => itemsForChallenge store ch 0 addresses)

def mkDonationItem (addr : String) (dCount : Nat) (donCh : QueuedChallenge) :
    WorkItem :=
  { address := addr, addressIndex := (-1 : Int), challenge := donCh,
    id := "donation-" ++ toString dCount ++ "-" ++ donCh.challengeId,
    isDonation := true }

/-- The donation-interleaving loop of `build()` (lines 324-354): push
each regular item; whenever `(i + donationOffset) % 20 = 0`, fetch a
donation address and, if one is returned and has not already solved the
donation challenge, push a donation item. -/
def interleaveDonations (store : SolutionStore) (donCh : QueuedChallenge)
    (offset : Nat) :
    Nat → List WorkItem → List (Option String) → Nat → List WorkItem
  | _, [], _, _ => []
  | i, w :: rest, fetches, dCount =>
    if (i + offset) % 20 = 0 then
      match fetches with
      | [] => w :: interleaveDonations store donCh offset (i + 1) rest [] dCount
      | none :: fs =>
        w :: interleaveDonations store donCh offset (i + 1) rest fs dCount
      | some addr :: fs =>
        if hasSolutionStore store addr donCh.challengeId then
          w :: interleaveDonations store donCh offset (i + 1) rest fs dCount
        else
          w :: mkDonationItem addr dCount donCh
            :: interleaveDonations store donCh offset (i + 1) rest fs (dCount + 1)
    else w :: interleaveDonations store donCh offset (i + 1) rest fetches dCount

/-- The queue produced by one `WorkQueue.build(addresses, challenges)`
call (lines 274-365).  `sortedChallenges[0]` is the donation challenge;
with no challenge available the queue is just the regular items. -/
def buildQueue (store : SolutionStore) (addresses : List String)
    (challenges : List QueuedChallenge) (offset : Nat)
    (fetches : List (Option String)) : List WorkItem :=
  let regular := buildRegularItems store addresses challenges
  match sortChallengesByDifficulty challenges with
  | [] => regular
  | donCh :: _ => interleaveDonations store donCh offset 0 regular fetches 0

/-! ### Submit-step guard and expiry abortion

Embeds the decision taken by `MiningOrchestrator.workerLoop`
(`mining-orchestrator.ts` lines 268-310) once the miner subprocess for a
work item has finished, and `checkAndAbortExpiredWork` (lines 331-347).
`MiningResult` is the subprocess JSON contract (`rust-miner.ts` lines
20-26); the truthiness tests `result.nonce && result.preimage &&
result.hash` treat both an absent field and an empty string as false. -/

structure MiningResult where
  success : Bool
  nonce : Option String
  preimage : Option String
  hash : Option String
  message : Option String
deriving DecidableEq

/-- The result an aborted miner subprocess resolves with
(`rust-miner.ts` lines 113-116): the `close` handler sees `wasAborted`
and reports no solution. -/
def abortedMiningResult : MiningResult :=
  { success := false, nonce := none, preimage := none, hash := none,
    message := some "Mining aborted due to challenge expiration" }

def jsTruthyStr : Option String → Bool
  | none => false
  | some s => !(s = "")

inductive WorkerAction
  | submit (address challengeId nonce : String) (isDonation : Bool)
  | completeExpired
  | release
deriving DecidableEq

/-- `workerLoop` after `rustMiner.mine` resolves (lines 268-310): on a
successful result the expiry of the work item's challenge is re-checked
against the local clock and an expired item is completed without
submission; only a live challenge reaches `submitSolution`.  A
non-success result releases the item. -/
def workerStep (item : WorkItem) (result : MiningResult) (now : Nat) :
    WorkerAction :=
  if result.success && jsTruthyStr result.nonce && jsTruthyStr result.preimage
      && jsTruthyStr result.hash then
    if item.challenge.latestSubmission ≤ now then .completeExpired
    else
      .submit item.address item.challenge.challengeId
        (result.nonce.getD "") item.isDonation
  else .release

/-- `checkAndAbortExpiredWork` (lines 331-347) over the
`workerChallenges` map (worker id to challenge id and expiry): returns
the aborted worker ids and the surviving map. -/
def checkAndAbortExpiredWork (now : Nat)
    (workerChallenges : List (Nat × String × Nat)) :
    List Nat × List (Nat × String × Nat) :=
  ((workerChallenges.filter (fun p => decide (p.2.2 ≤ now))).map Prod.fst,
   workerChallenges.filter (fun p => !decide (p.2.2 ≤ now)))

/-! ### Boot-time address cache

Embeds the cache file `/var/lib/night-cloud/addresses.json`
(`assign-addresses.ts` lines 20, 253-305): `loadCachedAddresses` returns
the cached list whenever the file exists, and `main` contacts the
registry only when it returns nothing. -/

structure CachedAddresses where
  addresses : List String
  instanceId : String
  cachedAt : Nat
deriving DecidableEq

def loadCachedAddresses : Option CachedAddresses → Option (List String)
  | some c => some c.addresses
  | none => none

structure AllocRun where
  output : Option (List String)
  registryAccessed : Bool
  registry : Registry
deriving DecidableEq

/-- `main` of `assign-addresses.ts` (lines 287-305): cache first, and
only on a cache miss reserve from the registry (one successful
read-modify-write attempt of `reserveAddresses`).  `registryAccessed`
records whether the registry object was read or written at all. -/
def allocMain (cache : Option CachedAddresses) (iid pip reg : String)
    (now : Nat) (r : Registry) : AllocRun :=
  match loadCachedAddresses cache with
  | some addrs => { output := some addrs, registryAccessed := false, registry := r }
  | none =>
    match reserveAddressesStep iid pip reg now r with
    | .assigned a r' =>
      { output := some a.addresses, registryAccessed := true, registry := r' }
    | .alreadyAssigned addrs =>
      { output := some addrs, registryAccessed := true, registry := r }
    | .noAddresses =>
      { output := none, registryAccessed := true, registry := r }
    | .exhausted =>
      { output := none, registryAccessed := true, registry := r }

/-! ### Concrete sample inputs

Concrete instances used to exercise the theorems below on closed
inputs.  The `s4` family is scenario S4 of the specification. -/

def s4C1 : QueuedChallenge :=
  { challengeId := "C1", challengeNumber := 1, challengeTotal := 504,
    campaignDay := 1, difficulty := "000007FF", noPreMine := "00",
    noPreMineHour := "0", latestSubmission := 1000, availableAt := 10 }

def s4C2 : QueuedChallenge :=
  { challengeId := "C2", challengeNumber := 2, challengeTotal := 504,
    campaignDay := 1, difficulty := "0000000F", noPreMine := "00",
    noPreMineHour := "0", latestSubmission := 1000, availableAt := 20 }

def s4Store : SolutionStore :=
  [("a", { address := "a",
           solutions := [{ challengeId := "C1", nonce := "n1",
                           submittedAt := 5, instanceId := none }],
           lastUpdated := 5 })]

def s4ItemC2 : WorkItem :=
  { address := "a", addressIndex := 0, challenge := s4C2, id := "a-C2",
    isDonation := false }

def c4A : QueuedChallenge :=
  { challengeId := "A", challengeNumber := 1, challengeTotal := 504,
    campaignDay := 1, difficulty := "FFFFFFFFFFFFFF", noPreMine := "00",
    noPreMineHour := "0", latestSubmission := 1000, availableAt := 10 }

def c4B : QueuedChallenge :=
  { challengeId := "B", challengeNumber := 2, challengeTotal := 504,
    campaignDay := 1, difficulty := "0F", noPreMine := "00",
    noPreMineHour := "0", latestSubmission := 1000, availableAt := 20 }

def c4ItemA : WorkItem :=
  { address := "a", addressIndex := 0, challenge := c4A, id := "a-A",
    isDonation := false }

def c4ItemB : WorkItem :=
  { address := "a", addressIndex := 0, challenge := c4B, id := "a-B",
    isDonation := false }

def c3Item : WorkItem :=
  { address := "a",
    addressIndex := 0,
    challenge :=
      { challengeId := "C9", challengeNumber := 9, challengeTotal := 504,
        campaignDay := 1, difficulty := "FF", noPreMine := "00",
        noPreMineHour := "0", latestSubmission := 1000, availableAt := 10 },
    id := "a-C9", isDonation := false }

def c3Result : MiningResult :=
  { success := true, nonce := some "n", preimage := some "p",
    hash := some "h", message := none }

def c6Cache : CachedAddresses :=
  { addresses := ["x1", "x2"], instanceId := "i-abc", cachedAt := 3 }

def c6Reg : Registry := seedRegistry ["x1", "x2"] 1 0 "us-east-1"

def c8Assign : Assignment :=
  { instanceId := "W1", publicIp := "ip", startAddress := 0, endAddress := 4,
    addresses := ["a0", "a1", "a2", "a3", "a4"], assignedAt := 0,
    region := "r", lastHeartbeat := none }

def c8Reg : Registry :=
  { assignments := [("W1", c8Assign)],
    addresses := ["a0", "a1", "a2", "a3", "a4", "a5", "a6", "a7", "a8", "a9"],
    nextAvailable := 5, lastUpdated := 0, addressesPerInstance := some 5,
    region := some "r" }

def c8Now : Nat := 1800001

def c8Cleaned : Registry := cleanupRegistryStep [] c8Now c8Now c8Reg

def c8NewAssign : Assignment :=
  { instanceId := "W2", publicIp := "ip", startAddress := 5, endAddress := 9,
    addresses := ["a5", "a6", "a7", "a8", "a9"], assignedAt := c8Now,
    region := "r", lastHeartbeat := some c8Now }

def c7Assign : Assignment :=
  { instanceId := "W1", publicIp := "ip", startAddress := 0, endAddress := 4,
    addresses := ["a0", "a1", "a2", "a3", "a4"], assignedAt := 1800000,
    region := "r", lastHeartbeat := none }

def c7Fresh : Assignment :=
  { instanceId := "W2", publicIp := "ip", startAddress := 5, endAddress := 9,
    addresses := ["a5", "a6", "a7", "a8", "a9"], assignedAt := 0,
    region := "r", lastHeartbeat := none }

def c7Reg : Registry :=
  { assignments := [("W1", c7Assign), ("W2", c7Fresh)],
    addresses := ["a0", "a1", "a2", "a3", "a4", "a5", "a6", "a7", "a8", "a9"],
    nextAvailable := 10, lastUpdated := 0, addressesPerInstance := some 5,
    region := some "r" }

def c7Now : Nat := 1800001

def c7Hb : List (String × Nat) := [("W1", 0), ("W2", 1800000)]

def c1Addrs : List String :=
  (List.range 20).map (fun i => "addr" ++ toString i)

def c1Ops : List RegOp := [.reserve "W1" "ip" "r" 1]

def c1Assign : Assignment :=
  { instanceId := "W1", publicIp := "ip", startAddress := 0, endAddress := 4,
    addresses := ["addr0", "addr1", "addr2", "addr3", "addr4"],
    assignedAt := 1, region := "r", lastHeartbeat := some 1 }

def c10Api (i : Nat) : ApiChallenge :=
  { challenge_id := "c" ++ toString i, challenge_number := i, day := 1,
    difficulty := "0F", no_pre_mine := "00", no_pre_mine_hour := "0",
    latest_submission := 100000, issued_at := i }

def c10Q24 : List QueuedChallenge :=
  runChallengeQueue ((List.range 24).map (fun i => ChalOp.add (c10Api i)))

/-- The combined invariant of the in-memory challenge queue: bounded by
`maxChallenges`, sorted ascending by `availableAt`, and with pairwise
distinct challenge ids. -/
def QueueInv (q : List QueuedChallenge) : Prop :=
  q.length ≤ maxChallenges ∧ q.Pairwise byAvailableAtAsc ∧
    (q.map QueuedChallenge.challengeId).Nodup

/-- The registry invariants of the specification: pairwise-disjoint
live address intervals, every live interval inside the address table,
and `nextAvailable` past every live interval. -/
def RegistryInv (r : Registry) : Prop :=
  r.assignments.Pairwise
    (fun p q => Disjoint (addrInterval p.2) (addrInterval q.2))
  ∧ (∀ p ∈ r.assignments,
      (p : String × Assignment).2.endAddress < r.addresses.length)
  ∧ (∀ p ∈ r.assignments,
      (p : String × Assignment).2.endAddress < r.nextAvailable)

/-! ## Theorems -/

/-- C3: Expiry safety of the submitter.  A `submit` action is only
produced when the work item's challenge is still strictly live at the
local clock of the submit step; the result of a subprocess aborted by
the expiry scanner never produces a submission; and the 10-second
scanner aborts exactly the workers whose tracked challenge has
`expiresAt ≤ now`. -/
theorem submitter_expiry_safety :
    (∀ (item : WorkItem) (result : MiningResult) (now : Nat)
       (a c n : String) (d : Bool),
        workerStep item result now = .submit a c n d →
        now < item.challenge.latestSubmission)
    ∧ (∀ (item : WorkItem) (now : Nat),
        workerStep item abortedMiningResult now = .release)
    ∧ (∀ (now : Nat) (wc : List (Nat × String × Nat)) (w : Nat),
        w ∈ (checkAndAbortExpiredWork now wc).1 ↔
          ∃ c e, (w, c, e) ∈ wc ∧ e ≤ now) := by
  refine ⟨?_, ?_, ?_⟩
  · intro item result now a c n d h
    unfold workerStep at h
    split at h
    · split at h
      · simp at h
      · next h2 => exact Nat.lt_of_not_le h2
    · simp at h
  · intro item now
    rfl
  · intro now wc w
    simp only [checkAndAbortExpiredWork, List.mem_map, List.mem_filter,
      decide_eq_true_eq]
    constructor
    · rintro ⟨⟨w', c, e⟩, ⟨hm, he⟩, rfl⟩
      exact ⟨c, e, hm, he⟩
    · rintro ⟨c, e, hm, he⟩
      exact ⟨(w, c, e), ⟨hm, he⟩, rfl⟩

/-- C3 witness: on a concrete live work item the guard admits the
submission and the theorem yields the strict clock bound. -/
theorem submitter_expiry_safety_witness :
    workerStep c3Item c3Result 50 = .submit "a" "C9" "n" false ∧
    (50 : Nat) < c3Item.challenge.latestSubmission :=
  ⟨by decide, submitter_expiry_safety.1 c3Item c3Result 50 "a" "C9" "n" false
    (by decide)⟩

/-- C6: Cache-first allocator.  When the local cache file exists and
records the booting worker's own id, `main` emits the cached address
list and neither reads nor writes the registry; conversely the registry
is only contacted when no such matching cache file is present. -/
theorem cache_first_allocator :
    (∀ (cache : Option CachedAddresses) (iid pip reg : String) (now : Nat)
       (r : Registry) (c : CachedAddresses),
        cache = some c → c.instanceId = iid →
        allocMain cache iid pip reg now r =
          { output := some c.addresses, registryAccessed := false,
            registry := r })
    ∧ (∀ (cache : Option CachedAddresses) (iid pip reg : String) (now : Nat)
       (r : Registry),
        (allocMain cache iid pip reg now r).registryAccessed = true →
        ¬∃ c : CachedAddresses, cache = some c ∧ c.instanceId = iid) := by
  constructor
  · intro cache iid pip reg now r c hc _
    subst hc
    rfl
  · intro cache iid pip reg now r h
    rintro ⟨c, rfl, _⟩
    simp [allocMain, loadCachedAddresses] at h

/-- C6 witness: a concrete cache hit with matching worker id returns the
cached addresses without touching the registry. -/
theorem cache_first_allocator_witness :
    allocMain (some c6Cache) "i-abc" "ip" "us-east-1" 9 c6Reg =
      { output := some c6Cache.addresses, registryAccessed := false,
        registry := c6Reg } :=
  cache_first_allocator.1 (some c6Cache) "i-abc" "ip" "us-east-1" 9 c6Reg
    c6Cache rfl rfl

/-- C8: Frame property of both reclaim paths.  The allocator's
opportunistic cleanup and the periodic reclaimer leave `nextAvailable`,
the address list and every surviving assignment exactly as read, and a
subsequent successful reservation starts at the preserved
`nextAvailable` cursor, so a freed hole below it is never reused. -/
theorem reclaim_frame :
    (∀ (now : Nat) (r : Registry),
        (cleanupStaleAssignments now r).nextAvailable = r.nextAvailable ∧
        (cleanupStaleAssignments now r).addresses = r.addresses ∧
        ∀ p, p ∈ (cleanupStaleAssignments now r).assignments →
          p ∈ r.assignments)
    ∧ (∀ (hb : List (String × Nat)) (now wNow : Nat) (r : Registry),
        (cleanupRegistryStep hb now wNow r).nextAvailable = r.nextAvailable ∧
        (cleanupRegistryStep hb now wNow r).addresses = r.addresses ∧
        ∀ p, p ∈ (cleanupRegistryStep hb now wNow r).assignments →
          p ∈ r.assignments)
    ∧ (∀ (iid pip reg : String) (now : Nat) (r : Registry) (a : Assignment)
       (r2 : Registry),
        reserveAddressesStep iid pip reg now r = .assigned a r2 →
        a.startAddress = r.nextAvailable) := by
  refine ⟨?_, ?_, ?_⟩
  · intro now r
    exact ⟨rfl, rfl, fun p hp => List.mem_of_mem_filter hp⟩
  · intro hb now wNow r
    simp only [cleanupRegistryStep]
    split
    · exact ⟨rfl, rfl, fun p hp => hp⟩
    · exact ⟨rfl, rfl, fun p hp => List.mem_of_mem_filter hp⟩
  · intro iid pip reg now r a r2 h
    simp only [reserveAddressesStep] at h
    split at h
    · simp at h
    · split at h
      · simp at h
      · split at h
        · simp at h
        · cases h
          rfl

/-- C8 witness: reclaiming the stale assignment covering `[0, 4]` from a
registry with `nextAvailable = 5` keeps `nextAvailable` at `5`, keeps
the surviving entries intact, and the next reservation starts at index
`5`, skipping the freed hole. -/
theorem reclaim_frame_witness :
    c8Cleaned.nextAvailable = c8Reg.nextAvailable ∧
    c8NewAssign.startAddress = c8Cleaned.nextAvailable ∧
    ("W1", c8Assign) ∈ c8Reg.assignments :=
  ⟨(reclaim_frame.2.1 [] c8Now c8Now c8Reg).1,
   reclaim_frame.2.2 "W2" "ip" "r" c8Now c8Cleaned c8NewAssign
     { assignments := [("W2", c8NewAssign)],
       addresses := ["a0", "a1", "a2", "a3", "a4", "a5", "a6", "a7", "a8",
         "a9"],
       nextAvailable := 10, lastUpdated := c8Now,
       addressesPerInstance := some 5, region := some "r" } (by decide),
   (reclaim_frame.1 0 c8Reg).2.2 ("W1", c8Assign) (by decide)⟩

/-- Applying `recordSolutionFile` twice for the same
`(address, challengeId, nonce)` non-donation call equals applying it
once: the second call finds the record and returns before writing. -/
theorem recordSolutionFile_idem (a c n : String) (i1 i2 : Option String)
    (t1 t2 : Nat) (file : Option AddressSolutions) :
    recordSolutionFile a c n i2 false t2
      (recordSolutionFile a c n i1 false t1 file) =
      recordSolutionFile a c n i1 false t1 file := by
  unfold recordSolutionFile
  simp only [Bool.false_eq_true, if_false]
  cases file with
  | none =>
    simp
  | some f =>
    by_cases h : f.solutions.any (fun s => s.challengeId = c)
    · simp [h]
    · simp [h, List.any_append]

/-- The per-address file keeps at most one record per challenge id
through any single non-donation `recordSolutionFile` call. -/
theorem recordSolutionFile_countP_le (a c n : String) (i : Option String)
    (don : Bool) (t : Nat) (file : Option AddressSolutions) (cid : String)
    (h : ((file.elim [] AddressSolutions.solutions).countP
        (fun s => s.challengeId = cid)) ≤ 1) :
    (((recordSolutionFile a c n i don t file).elim []
        AddressSolutions.solutions).countP
      (fun s => s.challengeId = cid)) ≤ 1 := by
  unfold recordSolutionFile
  by_cases hd : don = true
  · simpa [hd] using h
  · simp only [Bool.not_eq_true] at hd
    subst hd
    simp only [Bool.false_eq_true, if_false]
    cases file with
    | none =>
      simp only [Option.elim]
      by_cases hc : c = cid
      · subst hc
        simp [List.countP_cons]
      · simp [List.countP_cons, hc]
    | some f =>
      by_cases hany : f.solutions.any (fun s => s.challengeId = c)
      · simpa [hany] using h
      · simp only [hany, Bool.false_eq_true, if_false, Option.elim,
          List.countP_append]
        simp only [Option.elim] at h
        by_cases hc : c = cid
        · subst hc
          have hz : f.solutions.countP (fun s => decide (s.challengeId = c)) = 0 := by
            rw [List.countP_eq_zero]
            intro s hs
            simp only [List.any_eq_true] at hany
            simp only [decide_eq_true_eq]
            intro hsc
            exact hany ⟨s, hs, by simp [hsc]⟩
          simp [List.countP_cons, hz]
        · simp only [List.countP_cons, List.countP_nil]
          simp [hc]
          omega

/-- C2: `recordSolution` is idempotent on the per-address solutions
file, and after any sequence of successful calls starting from an
absent file the file holds at most one record per challenge id.  The
first conjunct: one non-donation call for `(a, c, n)` followed by any
further calls for the same triple (with arbitrary instance ids and
clocks) leaves the file exactly as after the single call. -/
theorem recordSolution_idempotent_and_at_most_once :
    (∀ (a c n : String) (ctx : RecordCallCtx) (rest : List RecordCallCtx)
       (file : Option AddressSolutions),
        rest.foldl
          (fun f x => recordSolutionFile a c n x.instanceId false x.now f)
          (recordSolutionFile a c n ctx.instanceId false ctx.now file) =
        recordSolutionFile a c n ctx.instanceId false ctx.now file)
    ∧ (∀ (calls : List RecordCall) (cid : String),
        (((runRecordCalls calls none).elim []
            AddressSolutions.solutions).countP
          (fun s => s.challengeId = cid)) ≤ 1) := by
  constructor
  · intro a c n ctx rest file
    induction rest generalizing ctx file with
    | nil => rfl
    | cons x rest ih =>
      rw [List.foldl_cons, recordSolutionFile_idem]
      exact ih ctx file
  · intro calls cid
    suffices h : ∀ (file : Option AddressSolutions),
        ((file.elim [] AddressSolutions.solutions).countP
          (fun s => s.challengeId = cid)) ≤ 1 →
        (((runRecordCalls calls file).elim []
            AddressSolutions.solutions).countP
          (fun s => s.challengeId = cid)) ≤ 1 by
      exact h none (by simp)
    induction calls with
    | nil => intro file hf; exact hf
    | cons x rest ih =>
      intro file hf
      exact ih _ (recordSolutionFile_countP_le x.address x.challengeId
        x.nonce x.ctx.instanceId x.isDonation x.ctx.now file cid hf)

/-- Truncating the tail of an append before truncating the whole list
is redundant: the cap only ever sees the first `n` elements. -/
theorem take_append_take {α : Type} (l m : List α) (n : Nat) :
    (l ++ m.take n).take n = (l ++ m).take n := by
  rw [List.take_append_eq_append_take, List.take_append_eq_append_take,
    List.take_take]
  congr 1
  congr 1
  omega

/-- The number of solution events equals the number of
`recentSolutions` entries they generate. -/
theorem length_filterMap_solEntry (events : List StatsEvent) :
    (events.filterMap solEntry).length = countSolEvents events := by
  induction events with
  | nil => rfl
  | cons e rest ih =>
    cases e with
    | sol a c d n =>
      simp [solEntry, countSolEvents, List.countP_cons] at ih ⊢
      omega
    | err a c m d n =>
      simp [solEntry, countSolEvents, List.countP_cons] at ih ⊢
      omega

/-- The number of error events equals the number of `recentErrors`
entries they generate. -/
theorem length_filterMap_errEntry (events : List StatsEvent) :
    (events.filterMap errEntry).length = countErrEvents events := by
  induction events with
  | nil => rfl
  | cons e rest ih =>
    cases e with
    | sol a c d n =>
      simp [errEntry, countErrEvents, List.countP_cons] at ih ⊢
      omega
    | err a c m d n =>
      simp [errEntry, countErrEvents, List.countP_cons] at ih ⊢
      omega

/-- Running any interleaving of committed stats updates from an
arbitrary starting value: counters accumulate and each recent list is
the capped newest-first history. -/
theorem runStats_spec (events : List StatsEvent) (s : SolutionStats)
    (hs : s.recentSolutions.length ≤ 20) (he : s.recentErrors.length ≤ 20) :
    (runStats events s).totalSolutions =
      s.totalSolutions + countSolEvents events ∧
    (runStats events s).totalErrors = s.totalErrors + countErrEvents events ∧
    (runStats events s).recentSolutions =
      ((events.filterMap solEntry).reverse ++ s.recentSolutions).take 20 ∧
    (runStats events s).recentErrors =
      ((events.filterMap errEntry).reverse ++ s.recentErrors).take 20 := by
  induction events generalizing s with
  | nil =>
    refine ⟨rfl, rfl, ?_, ?_⟩ <;>
      simp [runStats, countSolEvents, countErrEvents,
        List.take_of_length_le, hs, he]
  | cons e rest ih =>
    have hstep : runStats (e :: rest) s = runStats rest (statsStep s e) := rfl
    have hs' : (statsStep s e).recentSolutions.length ≤ 20 := by
      cases e <;>
        simp [statsStep, updateStatsCommit, updateStatsWithErrorCommit,
          List.length_take, hs, he]
    have he' : (statsStep s e).recentErrors.length ≤ 20 := by
      cases e <;>
        simp [statsStep, updateStatsCommit, updateStatsWithErrorCommit,
          List.length_take, hs, he]
    obtain ⟨ih1, ih2, ih3, ih4⟩ := ih (statsStep s e) hs' he'
    cases e with
    | sol a c d n =>
      refine ⟨?_, ?_, ?_, ?_⟩
      · rw [hstep, ih1]
        simp [statsStep, updateStatsCommit, countSolEvents, List.countP_cons]
        omega
      · rw [hstep, ih2]
        simp [statsStep, updateStatsCommit, countErrEvents, List.countP_cons]
      · rw [hstep, ih3]
        simp only [statsStep, updateStatsCommit, solEntry,
          List.filterMap_cons, List.reverse_cons]
        rw [take_append_take, List.append_assoc]
        simp
      · rw [hstep, ih4]
        simp [statsStep, updateStatsCommit, errEntry]
    | err a c m d n =>
      refine ⟨?_, ?_, ?_, ?_⟩
      · rw [hstep, ih1]
        simp [statsStep, updateStatsWithErrorCommit, countSolEvents,
          List.countP_cons]
      · rw [hstep, ih2]
        simp [statsStep, updateStatsWithErrorCommit, countErrEvents,
          List.countP_cons]
        omega
      · rw [hstep, ih3]
        simp [statsStep, updateStatsWithErrorCommit, solEntry]
      · rw [hstep, ih4]
        simp only [statsStep, updateStatsWithErrorCommit, errEntry,
          List.filterMap_cons, List.reverse_cons]
        rw [take_append_take, List.append_assoc]
        simp

/-- C9: Stats consistency.  After any interleaving of `N` committed
solution updates and `M` committed error updates starting from the
empty stats object, `totalSolutions = N`, `totalErrors = M`, the recent
lists hold `min(N, 20)` and `min(M, 20)` entries, and each recent list
is exactly the newest-first history truncated strictly to 20 entries
(the oldest entry is dropped on overflow). -/
theorem stats_consistency (events : List StatsEvent) (now0 : Nat) :
    (runStats events (createEmptyStats now0)).totalSolutions =
      countSolEvents events ∧
    (runStats events (createEmptyStats now0)).totalErrors =
      countErrEvents events ∧
    (runStats events (createEmptyStats now0)).recentSolutions.length =
      min (countSolEvents events) 20 ∧
    (runStats events (createEmptyStats now0)).recentErrors.length =
      min (countErrEvents events) 20 ∧
    (runStats events (createEmptyStats now0)).recentSolutions =
      ((events.filterMap solEntry).reverse).take 20 ∧
    (runStats events (createEmptyStats now0)).recentErrors =
      ((events.filterMap errEntry).reverse).take 20 := by
  obtain ⟨h1, h2, h3, h4⟩ := runStats_spec events (createEmptyStats now0)
    (by simp [createEmptyStats]) (by simp [createEmptyStats])
  refine ⟨?_, ?_, ?_, ?_, ?_, ?_⟩
  · rw [h1]; simp [createEmptyStats]
  · rw [h2]; simp [createEmptyStats]
  · rw [h3]
    simp [createEmptyStats, List.length_take,
      length_filterMap_solEntry events, Nat.min_comm]
  · rw [h4]
    simp [createEmptyStats, List.length_take,
      length_filterMap_errEntry events, Nat.min_comm]
  · rw [h3]; simp [createEmptyStats]
  · rw [h4]; simp [createEmptyStats]

/-- In an association list with distinct keys, the value at a key is
unique. -/
theorem value_unique_of_keys_nodup {β : Type} {l : List (String × β)}
    {w : String} {a b : β} (hnd : (l.map Prod.fst).Nodup)
    (ha : (w, a) ∈ l) (hb : (w, b) ∈ l) : a = b := by
  induction l with
  | nil => cases ha
  | cons p rest ih =>
    simp only [List.map_cons, List.nodup_cons] at hnd
    rcases List.mem_cons.mp ha with ha1 | ha1 <;>
      rcases List.mem_cons.mp hb with hb1 | hb1
    · exact congrArg Prod.snd (ha1.trans hb1.symm)
    · exact absurd (List.mem_map.mpr ⟨(w, b), hb1, by simp [← ha1]⟩) hnd.1
    · exact absurd (List.mem_map.mpr ⟨(w, a), ha1, by simp [← hb1]⟩) hnd.1
    · exact ih hnd.2 ha1 hb1

/-- The staleness test of the periodic reclaimer, spelled out: an entry
is stale exactly when the heartbeat map yields nothing or the falsy
value `0` and the assignment is older than the threshold, or it yields
a non-zero heartbeat older than the threshold. -/
theorem isStalePeriodic_iff (hb : List (String × Nat)) (now : Nat)
    (w : String) (a : Assignment) :
    isStalePeriodic hb now w a = true ↔
      (((lookupKey w hb = none ∨ lookupKey w hb = some 0) ∧
          now - a.assignedAt > STALE_THRESHOLD) ∨
        (∃ t, lookupKey w hb = some t ∧ t ≠ 0 ∧
          now - t > STALE_THRESHOLD)) := by
  unfold isStalePeriodic
  cases hv : lookupKey w hb with
  | none => simp
  | some t =>
    by_cases ht : t = 0
    · subst ht
      simp
    · simp [ht]

/-- C7 counterexample: the claim fails on a heartbeat whose parsed
timestamp is `0`.  Worker `W1`'s heartbeat entry is `0`, which is older
than the 30-minute threshold, so the claim requires the assignment to
be deleted; but `0` is falsy in `if (!lastHeartbeat)`, the code falls
back to the fresh `assignedAt`, and the assignment survives the
reclaimer pass. -/
theorem cleanup_deletes_exactly_stale_counterexample :
    (∃ t, lookupKey "W1" c7Hb = some t ∧ c7Now - t > STALE_THRESHOLD) ∧
    ¬(c7Now - c7Assign.assignedAt > STALE_THRESHOLD) ∧
    ("W1", c7Assign) ∈ (cleanupRegistryStep c7Hb c7Now c7Now c7Reg).assignments :=
  ⟨⟨0, rfl, by decide⟩, by decide, by decide⟩

/-- C7 (amended): the periodic reclaimer deletes exactly the
assignments whose heartbeat is missing or falsy (`0`) and whose
`assignedAt` age exceeds the 30-minute threshold, or whose non-zero
heartbeat is older than that threshold; every other assignment — in
particular any assignment with a fresh heartbeat — survives. -/
theorem cleanup_deletes_exactly_stale (hb : List (String × Nat))
    (now wNow : Nat) (r : Registry)
    (hnd : (r.assignments.map Prod.fst).Nodup) (w : String) (a : Assignment) :
    (w, a) ∈ (cleanupRegistryStep hb now wNow r).assignments ↔
      ((w, a) ∈ r.assignments ∧
        ¬((((lookupKey w hb = none ∨ lookupKey w hb = some 0) ∧
             now - a.assignedAt > STALE_THRESHOLD) ∨
           (∃ t, lookupKey w hb = some t ∧ t ≠ 0 ∧
             now - t > STALE_THRESHOLD)))) := by
  rw [← isStalePeriodic_iff hb now w a]
  simp only [cleanupRegistryStep]
  split
  · next hempty =>
    have hfil : r.assignments.filter
        (fun p => isStalePeriodic hb now p.1 p.2) = [] := by
      rcases hfe : r.assignments.filter
          (fun p => isStalePeriodic hb now p.1 p.2) with _ | ⟨p, rest⟩
      · exact hfe
      · rw [hfe] at hempty
        simp at hempty
    constructor
    · intro hm
      refine ⟨hm, fun hstale => ?_⟩
      have : (w, a) ∈ r.assignments.filter
          (fun p => isStalePeriodic hb now p.1 p.2) :=
        List.mem_filter.mpr ⟨hm, hstale⟩
      rw [hfil] at this
      cases this
    · exact fun h => h.1
  · constructor
    · intro hm
      have hm' := List.mem_filter.mp hm
      refine ⟨hm'.1, fun hstale => ?_⟩
      have hw : ((r.assignments.filter
          (fun p => isStalePeriodic hb now p.1 p.2)).map Prod.fst).contains w
          = true := by
        simp only [List.contains_eq_any_beq, List.any_eq_true]
        exact ⟨w, List.mem_map.mpr ⟨(w, a),
          List.mem_filter.mpr ⟨hm'.1, hstale⟩, rfl⟩, by simp⟩
      rw [hw] at hm'
      simp at hm'
    · rintro ⟨hm, hstale⟩
      refine List.mem_filter.mpr ⟨hm, ?_⟩
      simp only [Bool.not_eq_eq_eq_not, Bool.not_true,
        List.contains_eq_any_beq, List.any_eq_false]
      intro w' hw'
      rcases List.mem_map.mp hw' with ⟨⟨w2, a2⟩, hmem2, rfl⟩
      rcases List.mem_filter.mp hmem2 with ⟨hmem2r, hstale2⟩
      simp only [beq_iff_eq]
      intro hww
      have hww2 : w2 = w := hww.symm
      subst hww2
      have hab := value_unique_of_keys_nodup hnd hm hmem2r
      subst hab
      exact hstale hstale2

/-- C7 witness: in a registry holding one assignment with a falsy
heartbeat but fresh `assignedAt` and one with a fresh heartbeat, the
reclaimer pass keeps the fresh entry, and the amended characterization
applied at it certifies both its survival and its non-staleness. -/
theorem cleanup_deletes_exactly_stale_witness :
    ("W2", c7Fresh) ∈ c7Reg.assignments ∧
    ¬((((lookupKey "W2" c7Hb = none ∨ lookupKey "W2" c7Hb = some 0) ∧
         c7Now - c7Fresh.assignedAt > STALE_THRESHOLD) ∨
       (∃ t, lookupKey "W2" c7Hb = some t ∧ t ≠ 0 ∧
         c7Now - t > STALE_THRESHOLD))) :=
  (cleanup_deletes_exactly_stale c7Hb c7Now c7Now c7Reg (by decide) "W2"
    c7Fresh).mp (by decide)

/-- `addChallenge` preserves the queue invariant. -/
theorem queueInv_addChallenge {q : List QueuedChallenge} (c : ApiChallenge)
    (h : QueueInv q) : QueueInv (addChallenge c q) := by
  obtain ⟨hlen, hsort, hnd⟩ := h
  unfold addChallenge
  by_cases hdup : q.any (fun x => x.challengeId = c.challenge_id) = true
  · simpa [hdup] using ⟨hlen, hsort, hnd⟩
  · simp only [Bool.not_eq_true] at hdup
    simp only [hdup, Bool.false_eq_true, if_false]
    have hperm : List.Perm (sortByAvailableAt (q ++ [toQueuedChallenge c]))
        (q ++ [toQueuedChallenge c]) :=
      List.perm_insertionSort byAvailableAtAsc _
    have hsorted : (sortByAvailableAt
        (q ++ [toQueuedChallenge c])).Pairwise byAvailableAtAsc :=
      List.sorted_insertionSort byAvailableAtAsc _
    have hndm : ((sortByAvailableAt (q ++ [toQueuedChallenge c])).map
        QueuedChallenge.challengeId).Nodup := by
      refine (hperm.map QueuedChallenge.challengeId).nodup_iff.mpr ?_
      rw [List.map_append]
      refine List.Nodup.append hnd (by simp) ?_
      intro b hb hb'
      simp only [List.map_cons, List.map_nil, List.mem_singleton] at hb'
      rcases List.mem_map.mp hb with ⟨x, hx, hxb⟩
      rw [List.any_eq_false] at hdup
      have := hdup x hx
      simp only [decide_eq_true_eq] at this
      exact this (by rw [hxb, hb']; rfl)
    split
    · next hbig =>
      refine ⟨?_, hsorted.sublist (List.drop_sublist _ _),
        hndm.sublist ((List.drop_sublist _ _).map _)⟩
      rw [List.length_drop]
      omega
    · next hsmall =>
      exact ⟨by omega, hsorted, hndm⟩

/-- `cleanExpiredChallenges` preserves the queue invariant. -/
theorem queueInv_cleanExpired {q : List QueuedChallenge} (now : Nat)
    (h : QueueInv q) : QueueInv (cleanExpiredChallenges now q) := by
  obtain ⟨hlen, hsort, hnd⟩ := h
  refine ⟨le_trans (List.length_filter_le _ _) hlen,
    hsort.sublist (List.filter_sublist _),
    hnd.sublist ((List.filter_sublist _).map _)⟩

/-- C10: The in-memory challenge queue holds at most 24 challenges,
kept sorted ascending by `availableAt` with at most one entry per
challenge id, for every operation sequence from the empty queue;
`addChallenge` of an already-present id is a no-op; and whenever the
cap evicts entries, every evicted entry's `availableAt` is at most that
of every retained entry — the earliest challenges are dropped, with no
regard to expiry. -/
theorem challenge_queue_invariants :
    (∀ ops : List ChalOp,
        (runChallengeQueue ops).length ≤ maxChallenges ∧
        (runChallengeQueue ops).Pairwise byAvailableAtAsc ∧
        ((runChallengeQueue ops).map QueuedChallenge.challengeId).Nodup)
    ∧ (∀ (q : List QueuedChallenge) (c : ApiChallenge),
        q.any (fun x => x.challengeId = c.challenge_id) = true →
        addChallenge c q = q)
    ∧ (∀ (q : List QueuedChallenge) (c : ApiChallenge)
       (x y : QueuedChallenge),
        q.any (fun x => x.challengeId = c.challenge_id) = false →
        x ∈ sortByAvailableAt (q ++ [toQueuedChallenge c]) →
        x ∉ addChallenge c q → y ∈ addChallenge c q →
        x.availableAt ≤ y.availableAt) := by
  refine ⟨?_, ?_, ?_⟩
  · intro ops
    suffices h : ∀ (q : List QueuedChallenge), QueueInv q →
        QueueInv (ops.foldl chalStep q) by
      exact h [] ⟨by simp [maxChallenges], by simp, by simp⟩
    induction ops with
    | nil => exact fun q hq => hq
    | cons op rest ih =>
      intro q hq
      refine ih (chalStep q op) ?_
      cases op with
      | add c => exact queueInv_addChallenge c hq
      | clean now => exact queueInv_cleanExpired now hq
  · intro q c hdup
    simp [addChallenge, hdup]
  · intro q c x y hdup hx hnx hy
    set s := sortByAvailableAt (q ++ [toQueuedChallenge c]) with hs
    have hadd : addChallenge c q =
        (if maxChallenges < s.length then
          s.drop (s.length - maxChallenges)
        else s) := by
      simp [addChallenge, hdup, hs]
    rw [hadd] at hnx hy
    by_cases hbig : maxChallenges < s.length
    · rw [if_pos hbig] at hnx hy
      have hsorted : s.Pairwise byAvailableAtAsc :=
        List.sorted_insertionSort byAvailableAtAsc (q ++ [toQueuedChallenge c])
      have hsplit := List.take_append_drop (s.length - maxChallenges) s
      have hx' : x ∈ s.take (s.length - maxChallenges) := by
        rw [← hsplit] at hx
        rcases List.mem_append.mp hx with h | h
        · exact h
        · exact absurd h hnx
      have hsorted2 : (s.take (s.length - maxChallenges) ++
          s.drop (s.length - maxChallenges)).Pairwise byAvailableAtAsc := by
        rw [hsplit]
        exact hsorted
      exact (List.pairwise_append.mp hsorted2).2.2 x hx' y hy
    · rw [if_neg hbig] at hnx
      exact absurd hx hnx

/-- C10 witness: with 24 queued challenges, re-adding an existing id is
a no-op, and adding a 25th distinct challenge evicts the entry with the
earliest `availableAt` (still unexpired), which the theorem certifies
to be no later than every retained entry. -/
theorem challenge_queue_invariants_witness :
    addChallenge (c10Api 0) c10Q24 = c10Q24 ∧
    (toQueuedChallenge (c10Api 0)).availableAt ≤
      (toQueuedChallenge (c10Api 1)).availableAt :=
  ⟨challenge_queue_invariants.2.1 c10Q24 (c10Api 0) (by decide),
   challenge_queue_invariants.2.2 c10Q24 (c10Api 24)
     (toQueuedChallenge (c10Api 0)) (toQueuedChallenge (c10Api 1))
     (by decide) (by decide) (by decide) (by decide)⟩

/-- Every item the per-challenge loop emits carries that challenge and
is a regular (non-donation) item. -/
theorem itemsForChallenge_mem {store : SolutionStore} {ch : QueuedChallenge}
    {addrs : List String} {w : WorkItem} :
    ∀ {i : Nat}, w ∈ itemsForChallenge store ch i addrs →
      w.challenge = ch ∧ w.isDonation = false := by
  induction addrs with
  | nil => intro i h; cases h
  | cons a0 rest ih =>
    intro i h
    rw [itemsForChallenge] at h
    split at h
    · exact ih h
    · rcases List.mem_cons.mp h with rfl | h2
      · exact ⟨rfl, rfl⟩
      · exact ih h2

/-- Donation interleaving only inserts donation-flagged items, so
filtering them out recovers the regular items in order. -/
theorem interleaveDonations_filter (store : SolutionStore)
    (donCh : QueuedChallenge) (offset : Nat) :
    ∀ (l : List WorkItem) (i : Nat) (fetches : List (Option String))
      (dc : Nat), (∀ w ∈ l, w.isDonation = false) →
      (interleaveDonations store donCh offset i l fetches dc).filter
        (fun w => !w.isDonation) = l := by
  intro l
  induction l with
  | nil => intro i fetches dc _; rfl
  | cons w rest ih =>
    intro i fetches dc h
    have hw : w.isDonation = false := h w (List.mem_cons_self w rest)
    have hrest : ∀ x ∈ rest, x.isDonation = false := fun x hx =>
      h x (List.mem_cons_of_mem w hx)
    simp only [interleaveDonations]
    split
    · split
      · simp [List.filter_cons, hw, ih _ _ _ hrest]
      · simp [List.filter_cons, hw, ih _ _ _ hrest]
      · split
        · simp [List.filter_cons, hw, ih _ _ _ hrest]
        · simp [List.filter_cons, hw, mkDonationItem, ih _ _ _ hrest]
    · simp [List.filter_cons, hw, ih _ _ _ hrest]

/-- Filtering the built queue down to its regular items yields exactly
the `regularWorkItems` list of `build()`. -/
theorem buildQueue_filter_regular (store : SolutionStore)
    (addrs : List String) (chs : List QueuedChallenge) (offset : Nat)
    (fetches : List (Option String)) :
    (buildQueue store addrs chs offset fetches).filter
      (fun w => !w.isDonation) = buildRegularItems store addrs chs := by
  have hreg : ∀ w ∈ buildRegularItems store addrs chs,
      w.isDonation = false := by
    intro w hw
    rcases List.mem_flatMap.mp hw with ⟨ch, _, hwi⟩
    exact (itemsForChallenge_mem hwi).2
  unfold buildQueue
  cases hsort : sortChallengesByDifficulty chs with
  | nil =>
    refine List.filter_eq_self.mpr ?_
    intro w hw
    simp [hreg w hw]
  | cons d ds =>
    exact interleaveDonations_filter store d offset _ 0 fetches 0 hreg

/-- Flattening per-challenge item lists over a descending-popcount
challenge list yields items ordered by descending popcount. -/
theorem pairwise_flatMap_difficulty (store : SolutionStore)
    (addrs : List String) {cs : List QueuedChallenge}
    (h : cs.Pairwise byDifficultyDesc) :
    (cs.flatMap (fun ch => itemsForChallenge store ch 0 addrs)).Pairwise
      (fun w1 w2 =>
        difficultyBits w2.challenge ≤ difficultyBits w1.challenge) := by
  induction cs with
  | nil => simp
  | cons c cs ih =>
    rw [List.flatMap_cons]
    rw [List.pairwise_cons] at h
    refine List.pairwise_append.mpr ⟨?_, ih h.2, ?_⟩
    · refine List.pairwise_of_forall_mem_list ?_
      intro w1 h1 w2 h2
      rw [(itemsForChallenge_mem h1).1, (itemsForChallenge_mem h2).1]
    · intro w1 h1 w2 h2
      rcases List.mem_flatMap.mp h2 with ⟨c2, hc2, hw2⟩
      rw [(itemsForChallenge_mem h1).1, (itemsForChallenge_mem hw2).1]
      exact h.1 c2 hc2

set_option maxRecDepth 8192 in
/-- C4 counterexample: the claim fails as stated at the difficulty
strings `"FFFFFFFFFFFFFF"` (14 hex digits, exactly 56 set bits) and
`"0F"` (4 set bits).  `parseInt` rounds `2 ^ 56 - 1` to the double
`2 ^ 56`, whose binary expansion has a single `'1'`, so the comparator
counts 1 < 4 and `build()` emits the 4-bit challenge's item first —
the emitted regular items are not sorted by descending exact popcount
of the difficulty. -/
theorem build_difficulty_ordering_counterexample :
    hexBitCount c4B.difficulty < hexBitCount c4A.difficulty ∧
    (buildQueue [] ["a"] [c4A, c4B] 0 []).filter
      (fun w => !w.isDonation) = [c4ItemB, c4ItemA] ∧
    ¬((buildQueue [] ["a"] [c4A, c4B] 0 []).filter
        (fun w => !w.isDonation)).Pairwise
      (fun w1 w2 =>
        hexBitCount w2.challenge.difficulty ≤
          hexBitCount w1.challenge.difficulty) := by
  refine ⟨by decide, by decide, ?_⟩
  intro h
  rw [show (buildQueue [] ["a"] [c4A, c4B] 0 []).filter
      (fun w => !w.isDonation) = [c4ItemB, c4ItemA] from by decide] at h
  rcases List.pairwise_cons.mp h with ⟨hrel, _⟩
  exact absurd (hrel c4ItemA (List.mem_singleton.mpr rfl)) (by decide)

/-- C4 (amended): Difficulty ordering of `build()`.  The regular
(non-donation) work items of any built queue are sorted by descending
count of the set bits of the double-precision `parseInt` value of the
hex `difficulty` — which equals the exact popcount of the difficulty
whenever the parsed value stays below `2 ^ 53`, in particular for
difficulties of at most 13 hex digits.  An item of a challenge with a
strictly larger such count is always emitted before every item of a
challenge with a smaller one. -/
theorem build_difficulty_ordering (store : SolutionStore)
    (addrs : List String) (chs : List QueuedChallenge) (offset : Nat)
    (fetches : List (Option String)) :
    ((buildQueue store addrs chs offset fetches).filter
        (fun w => !w.isDonation)).Pairwise
      (fun w1 w2 =>
        difficultyBits w2.challenge ≤ difficultyBits w1.challenge) := by
  rw [buildQueue_filter_regular]
  unfold buildRegularItems
  exact pairwise_flatMap_difficulty store addrs
    (List.sorted_insertionSort byDifficultyDesc chs)

/-- The per-challenge loop emits an item with address `a` exactly when
`a` is an input address that has not yet solved the challenge. -/
theorem exists_itemsFor_iff (store : SolutionStore) (ch : QueuedChallenge)
    (addrs : List String) (a c : String) :
    ∀ i : Nat,
      (∃ w, w ∈ itemsForChallenge store ch i addrs ∧ w.address = a ∧
        w.challenge.challengeId = c)
      ↔ (a ∈ addrs ∧ ch.challengeId = c ∧
        hasSolutionStore store a ch.challengeId = false) := by
  induction addrs with
  | nil => intro i; simp [itemsForChallenge]
  | cons a0 rest ih =>
    intro i
    rw [itemsForChallenge]
    by_cases hs : hasSolutionStore store a0 ch.challengeId = true
    · rw [if_pos hs, ih (i + 1)]
      constructor
      · rintro ⟨hmem, hcid, hsol⟩
        exact ⟨List.mem_cons_of_mem a0 hmem, hcid, hsol⟩
      · rintro ⟨hmem, hcid, hsol⟩
        rcases List.mem_cons.mp hmem with rfl | hmem2
        · rw [hs] at hsol
          cases hsol
        · exact ⟨hmem2, hcid, hsol⟩
    · rw [if_neg hs]
      rw [Bool.not_eq_true] at hs
      constructor
      · rintro ⟨w, hw, hwa, hwc⟩
        rcases List.mem_cons.mp hw with rfl | hw2
        · subst hwa
          exact ⟨List.mem_cons_self _ _, hwc, hs⟩
        · obtain ⟨hmem, hcid, hsol⟩ := (ih (i + 1)).mp ⟨w, hw2, hwa, hwc⟩
          exact ⟨List.mem_cons_of_mem a0 hmem, hcid, hsol⟩
      · rintro ⟨hmem, hcid, hsol⟩
        rcases List.mem_cons.mp hmem with rfl | hmem2
        · exact ⟨_, List.mem_cons_self _ _, rfl, hcid⟩
        · obtain ⟨w, hw, hp⟩ := (ih (i + 1)).mpr ⟨hmem2, hcid, hsol⟩
          exact ⟨w, List.mem_cons_of_mem _ hw, hp⟩

set_option maxRecDepth 8192 in
/-- C5: Dedup via the solutions ledger.  `build()` emits a regular work
item for `(a, c)` exactly when `a` is a queue address, some input
challenge has id `c`, and the ledger holds no solution for `(a, c)`;
and in scenario S4, where `solutions/a.json` already records `C1`,
building over `[C1, C2]` yields exactly the one regular item
`(a, C2)`. -/
theorem build_dedup_via_ledger :
    (∀ (store : SolutionStore) (addrs : List String)
       (chs : List QueuedChallenge) (offset : Nat)
       (fetches : List (Option String)) (a c : String),
        (∃ w, w ∈ (buildQueue store addrs chs offset fetches).filter
            (fun w => !w.isDonation) ∧
          w.address = a ∧ w.challenge.challengeId = c)
        ↔ (a ∈ addrs ∧ (∃ ch, ch ∈ chs ∧ ch.challengeId = c) ∧
          hasSolutionStore store a c = false))
    ∧ (buildQueue s4Store ["a"] [s4C1, s4C2] 0 []).filter
        (fun w => !w.isDonation) = [s4ItemC2] := by
  constructor
  · intro store addrs chs offset fetches a c
    rw [buildQueue_filter_regular]
    unfold buildRegularItems
    constructor
    · rintro ⟨w, hw, hwa, hwc⟩
      rcases List.mem_flatMap.mp hw with ⟨ch, hch, hwi⟩
      obtain ⟨hmem, hcid, hsol⟩ :=
        (exists_itemsFor_iff store ch addrs a c 0).mp ⟨w, hwi, hwa, hwc⟩
      refine ⟨hmem, ⟨ch, (List.mem_insertionSort byDifficultyDesc).mp hch,
        hcid⟩, ?_⟩
      rw [← hcid]
      exact hsol
    · rintro ⟨ha, ⟨ch, hch, hcid⟩, hsol⟩
      obtain ⟨w, hw, hp⟩ := (exists_itemsFor_iff store ch addrs a c 0).mpr
        ⟨ha, hcid, by rw [hcid]; exact hsol⟩
      exact ⟨w, List.mem_flatMap.mpr
        ⟨ch, (List.mem_insertionSort byDifficultyDesc).mpr hch, hw⟩, hp⟩
  · decide

/-- The `|| DEFAULT_ADDRESSES_PER_INSTANCE` fallback never yields zero
addresses per instance. -/
theorem effectiveAddressesPerInstance_pos (o : Option Nat) :
    1 ≤ effectiveAddressesPerInstance o := by
  cases o with
  | none => decide
  | some k =>
    show 1 ≤ if k = 0 then DEFAULT_ADDRESSES_PER_INSTANCE else k
    split
    · decide
    · next hk => omega

/-- The opportunistic cleanup preserves the registry invariants. -/
theorem registryInv_cleanupStale (now : Nat) {r : Registry}
    (h : RegistryInv r) : RegistryInv (cleanupStaleAssignments now r) := by
  obtain ⟨h1, h2, h3⟩ := h
  exact ⟨h1.sublist (List.filter_sublist _),
    fun p hp => h2 p (List.mem_of_mem_filter hp),
    fun p hp => h3 p (List.mem_of_mem_filter hp)⟩

/-- The periodic reclaimer pass preserves the registry invariants. -/
theorem registryInv_cleanupRegistry (hb : List (String × Nat))
    (now wNow : Nat) {r : Registry} (h : RegistryInv r) :
    RegistryInv (cleanupRegistryStep hb now wNow r) := by
  obtain ⟨h1, h2, h3⟩ := h
  simp only [cleanupRegistryStep]
  split
  · exact ⟨h1, h2, h3⟩
  · exact ⟨h1.sublist (List.filter_sublist _),
      fun p hp => h2 p (List.mem_of_mem_filter hp),
      fun p hp => h3 p (List.mem_of_mem_filter hp)⟩

/-- Characterization of a successful reservation: the new assignment
starts at the read `nextAvailable`, covers a nonempty interval below
the address-table length, and the written registry appends it to the
cleaned assignments with the cursor advanced past it. -/
theorem reserve_assigned_spec {iid pip reg : String} {now : Nat}
    {r : Registry} {a : Assignment} {r2 : Registry}
    (h : reserveAddressesStep iid pip reg now r = .assigned a r2) :
    a.startAddress = r.nextAvailable ∧
    r.nextAvailable ≤ a.endAddress ∧
    a.endAddress < r.addresses.length ∧
    r2.assignments = (cleanupStaleAssignments now r).assignments ++
      [(iid, a)] ∧
    r2.nextAvailable = a.endAddress + 1 ∧
    r2.addresses = r.addresses := by
  simp only [reserveAddressesStep] at h
  split at h
  · simp at h
  · split at h
    · simp at h
    · split at h
      · simp at h
      · next hlen =>
        cases h
        have hk := effectiveAddressesPerInstance_pos r.addressesPerInstance
        refine ⟨rfl, ?_, ?_, rfl, ?_, rfl⟩
        · show r.nextAvailable ≤ r.nextAvailable +
            effectiveAddressesPerInstance r.addressesPerInstance - 1
          omega
        · have := Nat.lt_of_not_le hlen
          exact this
        · rfl

/-- Every registry operation preserves the registry invariants. -/
theorem registryInv_regStep (op : RegOp) {r : Registry}
    (h : RegistryInv r) : RegistryInv (regStep r op) := by
  cases op with
  | cleanup hb now wNow => exact registryInv_cleanupRegistry hb now wNow h
  | reserve iid pip reg now =>
    simp only [regStep]
    rcases hEq : reserveAddressesStep iid pip reg now r with
      ⟨a, r2⟩ | addrs | _ | _
    · obtain ⟨hstart, hse, hlen, hasg, hnext, haddr⟩ :=
        reserve_assigned_spec hEq
      obtain ⟨hc1, hc2, hc3⟩ := registryInv_cleanupStale now h
      obtain ⟨h1, h2, h3⟩ := h
      refine ⟨?_, ?_, ?_⟩
      · rw [hasg]
        refine List.pairwise_append.mpr ⟨hc1, List.pairwise_singleton _ _, ?_⟩
        intro p hp q hq
        rcases List.mem_singleton.mp hq with rfl
        have hpe : p.2.endAddress < r.nextAvailable := hc3 p hp
        rw [Finset.disjoint_left]
        intro x hxp hxa
        rw [addrInterval, Finset.mem_Icc] at hxp hxa
        have hxa' : a.startAddress ≤ x ∧ x ≤ a.endAddress := hxa
        omega
      · intro p hp
        rw [hasg] at hp
        rw [haddr]
        rcases List.mem_append.mp hp with hp1 | hp1
        · exact hc2 p hp1
        · rcases List.mem_singleton.mp hp1 with rfl
          exact hlen
      · intro p hp
        rw [hasg] at hp
        rw [hnext]
        rcases List.mem_append.mp hp with hp1 | hp1
        · have hcb := hc3 p hp1
          have hcn : (cleanupStaleAssignments now r).nextAvailable =
              r.nextAvailable := rfl
          omega
        · rcases List.mem_singleton.mp hp1 with rfl
          exact Nat.lt_succ_self _
    · exact h
    · exact h
    · exact h

/-- The fresh controller seed satisfies the registry invariants. -/
theorem registryInv_seed (addresses : List String) (k now : Nat)
    (reg : String) : RegistryInv (seedRegistry addresses k now reg) := by
  refine ⟨?_, ?_, ?_⟩ <;> simp [seedRegistry, RegistryInv]

/-- C1: Registry safety.  Every registry state reachable from the
controller's fresh seed by any sequence of allocator reservations and
reclaimer passes has pairwise-disjoint live address intervals, every
live interval inside `[0, len(addresses))`, and `nextAvailable` at
least `endAddress + 1` of every live assignment. -/
theorem registry_reachable_invariants (addresses : List String)
    (k now : Nat) (reg : String) (ops : List RegOp) :
    (runRegistry addresses k now reg ops).assignments.Pairwise
      (fun p q => Disjoint (addrInterval p.2) (addrInterval q.2)) ∧
    (∀ p ∈ (runRegistry addresses k now reg ops).assignments,
      ∀ x ∈ addrInterval (p : String × Assignment).2,
        x < (runRegistry addresses k now reg ops).addresses.length) ∧
    (∀ p ∈ (runRegistry addresses k now reg ops).assignments,
      (p : String × Assignment).2.endAddress + 1 ≤
        (runRegistry addresses k now reg ops).nextAvailable) := by
  have hrun : RegistryInv (runRegistry addresses k now reg ops) := by
    unfold runRegistry
    have haux : ∀ (l : List RegOp) (r : Registry), RegistryInv r →
        RegistryInv (l.foldl regStep r) := by
      intro l
      induction l with
      | nil => exact fun r hr => hr
      | cons op rest ih =>
        intro r hr
        exact ih (regStep r op) (registryInv_regStep op hr)
    exact haux ops _ (registryInv_seed addresses k now reg)
  obtain ⟨h1, h2, h3⟩ := hrun
  refine ⟨h1, ?_, fun p hp => h3 p hp⟩
  intro p hp x hx
  have hxe := (Finset.mem_Icc.mp (by rwa [addrInterval] at hx)).2
  have := h2 p hp
  omega

/-- C1 witness: after one reservation on a freshly seeded registry of
20 addresses with 5 per instance, the reachable state's single
assignment covers `[0, 4]` inside the table and sits below
`nextAvailable`. -/
theorem registry_reachable_invariants_witness :
    (4 : Nat) < (runRegistry c1Addrs 5 0 "r" c1Ops).addresses.length ∧
    c1Assign.endAddress + 1 ≤ (runRegistry c1Addrs 5 0 "r" c1Ops).nextAvailable :=
  ⟨(registry_reachable_invariants c1Addrs 5 0 "r" c1Ops).2.1
      ("W1", c1Assign) (by decide) 4
      (by rw [NightCloud.addrInterval]; simp [c1Assign]),
   (registry_reachable_invariants c1Addrs 5 0 "r" c1Ops).2.2
      ("W1", c1Assign) (by decide)⟩

end NightCloud
